import Mathlib

set_option maxHeartbeats 1000000

/-
Verification development for the archive caching and extraction subsystem
(src/src/archive_manager.cc) and the open-file table adapter
(src/src/file_vtab.cc).

The C++ code is shallowly embedded: filesystem effects are made explicit as
state passing over small record types, and the inputs that the code receives
from libarchive (header reads, data blocks, format and filter queries, error
outcomes) are the fields of the input records.  Every definition follows the
corresponding source function; line references are given in doc comments.
-/

namespace ArchiveManager

/-- Free-space floor, archive_manager.cc:56: 32 * 1024 * 1024 bytes. -/
def MIN_FREE_SPACE : Nat := 32 * 1024 * 1024

/-- One iteration of the copy_data loop (archive_manager.cc:190-221) consumes
one data block from libarchive.  The fields record what the external calls
return at this iteration: whether archive_read_data_block fails, whether
archive_write_data_block fails, the block size, and the available space that
fs::space would report at this point. -/
structure Block where
  readErr : Bool
  writeErr : Bool
  size : Nat
  avail : Nat
deriving DecidableEq

/-- The error sites of archive_manager.cc, one constructor per Err() return. -/
inductive ArcError where
  | openFailure
  | headerReadFailure
  | readDataFailure
  | writeDataFailure
  | lowDiskSpace
  | writeHeaderFailure
  | finishEntryFailure
deriving DecidableEq

/-- Observable actions of copy_data: a block written to the destination
(ep_out_size counter increment, archive_manager.cc:208-209) and a free-space
query (fs::space, archive_manager.cc:212). -/
inductive CopyEvent where
  | wrote (size : Nat)
  | spaceQuery (avail : Nat)
deriving DecidableEq

/-- copy_data's loop, archive_manager.cc:190-221.  last_space_check is
initialised to 0 at line 187 and never reassigned, so it is threaded through
unchanged; total accumulates the written sizes.  Reaching the end of the block
list is ARCHIVE_EOF (line 192). -/
def copy_data_loop : List Block → Nat → Nat → Except ArcError Unit × List CopyEvent
  | [], _, _ => (Except.ok (), [])
  | b :: rest, last_space_check, total =>
    if b.readErr then (Except.error ArcError.readDataFailure, [])
    else if b.writeErr then (Except.error ArcError.writeDataFailure, [])
    else
      let total2 := total + b.size
      if total2 - last_space_check > 1024 * 1024 then
        if b.avail < MIN_FREE_SPACE then
          (Except.error ArcError.lowDiskSpace,
            [CopyEvent.wrote b.size, CopyEvent.spaceQuery b.avail])
        else
          let r := copy_data_loop rest last_space_check total2
          (r.1, CopyEvent.wrote b.size :: CopyEvent.spaceQuery b.avail :: r.2)
      else
        let r := copy_data_loop rest last_space_check total2
        (r.1, CopyEvent.wrote b.size :: r.2)

/-- copy_data, archive_manager.cc:177-222, with last_space_check = total = 0. -/
def copy_data (blocks : List Block) : Except ArcError Unit × List CopyEvent :=
  copy_data_loop blocks 0 0

/-- Total bytes recorded as written in a copy_data trace. -/
def writtenBytes (evs : List CopyEvent) : Nat :=
  (evs.map (fun e => match e with | CopyEvent.wrote n => n | _ => 0)).sum

/-- Sum of the sizes of a list of blocks. -/
def sizeSum (l : List Block) : Nat := (l.map Block.size).sum

def S_IFMT : Nat := 0o170000
def S_IFDIR : Nat := 0o040000
def S_IRUSR : Nat := 0o400
def S_IWUSR : Nat := 0o200
def S_IXUSR : Nat := 0o100

/-- POSIX S_ISDIR test on a mode word. -/
def S_ISDIR (mode : Nat) : Bool := mode &&& S_IFMT == S_IFDIR

/-- The permission forced onto every written entry, archive_manager.cc:293-294:
S_IRUSR plus, for directories, S_IXUSR and S_IWUSR; source permissions are
discarded (only S_ISDIR of the mode is consulted). -/
def entry_perm (mode : Nat) : Nat :=
  S_IRUSR ||| (if S_ISDIR mode then S_IXUSR ||| S_IWUSR else 0)

/-- One archive member as the extraction loop sees it,
archive_manager.cc:264-311.  headerErr: archive_read_next_header returns
neither OK nor EOF for this member; pathname: archive_entry_pathname;
sizeSet/size: archive_entry_size_is_set/archive_entry_size; mode:
archive_entry_mode; writeHeaderErr: archive_write_header fails; blocks: the
data blocks copy_data will see; finishErr: archive_write_finish_entry fails;
formatName/filterCount: archive_format_name/archive_filter_count when this
header is current. -/
structure Member where
  headerErr : Bool
  pathname : String
  sizeSet : Bool
  size : Nat
  mode : Nat
  writeHeaderErr : Bool
  blocks : List Block
  finishErr : Bool
  formatName : String
  filterCount : Nat
deriving DecidableEq

/-- The inputs of one call to extract (archive_manager.cc:224-318): the source
path, its resolved cache entry path (filename_to_tmp_path's result), whether
archive_read_open_filename fails, and the member stream. -/
structure ExtractInput where
  filename : String
  tmp_path : String
  openErr : Bool
  members : List Member
deriving DecidableEq

/-- A file written under the cache entry directory: its path, the forced
permission bits, whether it is a directory, and the bytes of body written. -/
structure EFile where
  path : String
  perm : Nat
  isDir : Bool
  bytes : Nat
deriving DecidableEq

/-- The state of one cache entry: the mtime of the .done sentinel when it
exists, and the files written under the entry directory. -/
structure EntryFS where
  doneMtime : Option Nat
  files : List EFile
deriving DecidableEq

/-- Observable actions of extract: touching the sentinel's mtime (line
239-240), opening the source (line 255), the per-member callback invocation
(line 287-289), writing a header with forced permissions (line 295), writing
body data, a space query, and creating the .done sentinel (line 315). -/
inductive Event where
  | touchDone
  | openSource
  | cbStart (path : String) (declSize : Int)
  | wroteHeader (path : String) (perm : Nat)
  | wroteData (path : String) (size : Nat)
  | spaceQuery (avail : Nat)
  | createDone
deriving DecidableEq

instance exceptDecEq {ε α : Type} [DecidableEq ε] [DecidableEq α] :
    DecidableEq (Except ε α) := fun a b =>
  match a, b with
  | Except.ok x, Except.ok y =>
    if h : x = y then Decidable.isTrue (congrArg Except.ok h)
    else Decidable.isFalse (fun hc => h (Except.ok.inj hc))
  | Except.error x, Except.error y =>
    if h : x = y then Decidable.isTrue (congrArg Except.error h)
    else Decidable.isFalse (fun hc => h (Except.error.inj hc))
  | Except.ok _, Except.error _ => Decidable.isFalse (fun hc => Except.noConfusion hc)
  | Except.error _, Except.ok _ => Decidable.isFalse (fun hc => Except.noConfusion hc)

/-- Result of extract: the entry state after the call, the returned
walk_result_t, and the trace of observable actions. -/
structure ExtractOut where
  fs : EntryFS
  res : Except ArcError Unit
  events : List Event
deriving DecidableEq

/-- Characters of the component after the last slash. -/
def basenameAux : List Char → List Char → List Char
  | [], acc => acc
  | c :: cs, acc => if c = '/' then basenameAux cs [] else basenameAux cs (acc ++ [c])

/-- fs::path(s).filename(): the component after the last slash. -/
def basenameOf (s : String) : String := String.mk (basenameAux s.toList [])

def copyEventToEvent (p : String) : CopyEvent → Event
  | CopyEvent.wrote n => Event.wroteData p n
  | CopyEvent.spaceQuery a => Event.spaceQuery a

/-- The body of the extraction loop for one member,
archive_manager.cc:264-311: header read check, raw-stream pathname override
(line 283-285), progress callback (line 287-289), forced permissions (line
293-294), header write, body copy when the size is unset or positive (line
301-303), finish. -/
def process_member (filename tmp_path : String) (m : Member) (fs : EntryFS) :
    Except ArcError Unit × EntryFS × List Event :=
  if m.headerErr then (Except.error ArcError.headerReadFailure, fs, [])
  else
    let desired := if m.formatName = "raw" ∧ 2 ≤ m.filterCount then basenameOf filename
                   else m.pathname
    let entry_path := tmp_path ++ "/" ++ desired
    let evs1 := [Event.cbStart entry_path (if m.sizeSet then (m.size : Int) else -1)]
    if m.writeHeaderErr then (Except.error ArcError.writeHeaderFailure, fs, evs1)
    else
      let perm := entry_perm m.mode
      let evs2 := evs1 ++ [Event.wroteHeader entry_path perm]
      if m.sizeSet = false ∨ 0 < m.size then
        let c := copy_data m.blocks
        let fs2 : EntryFS :=
          { fs with files := fs.files ++ [⟨entry_path, perm, S_ISDIR m.mode, writtenBytes c.2⟩] }
        let evs3 := evs2 ++ c.2.map (copyEventToEvent entry_path)
        match c.1 with
        | Except.error e => (Except.error e, fs2, evs3)
        | Except.ok _ =>
          if m.finishErr then (Except.error ArcError.finishEntryFailure, fs2, evs3)
          else (Except.ok (), fs2, evs3)
      else
        let fs2 : EntryFS :=
          { fs with files := fs.files ++ [⟨entry_path, perm, S_ISDIR m.mode, 0⟩] }
        if m.finishErr then (Except.error ArcError.finishEntryFailure, fs2, evs2)
        else (Except.ok (), fs2, evs2)

/-- The while loop of extract, archive_manager.cc:264-311, followed on
ARCHIVE_EOF by the creation of the .done sentinel (line 315; its mtime is the
creation time). -/
def extract_loop (filename tmp_path : String) (now : Nat) :
    List Member → EntryFS → List Event → ExtractOut
  | [], fs, evs =>
    { fs := { fs with doneMtime := some now },
      res := Except.ok (), events := evs ++ [Event.createDone] }
  | m :: rest, fs, evs =>
    let s := process_member filename tmp_path m fs
    match s.1 with
    | Except.error e => { fs := s.2.1, res := Except.error e, events := evs ++ s.2.2 }
    | Except.ok _ => extract_loop filename tmp_path now rest s.2.1 (evs ++ s.2.2)

/-- extract, archive_manager.cc:224-318.  If the .done sentinel exists its
mtime is set to now and the call returns Ok with no other action (lines
238-243); otherwise the source is opened (line 255) and the member loop runs. -/
def extract (fs : EntryFS) (now : Nat) (inp : ExtractInput) : ExtractOut :=
  match fs.doneMtime with
  | some _ =>
    { fs := { fs with doneMtime := some now },
      res := Except.ok (), events := [Event.touchDone] }
  | none =>
    if inp.openErr then
      { fs := fs, res := Except.error ArcError.openFailure, events := [Event.openSource] }
    else
      extract_loop inp.filename inp.tmp_path now inp.members fs [Event.openSource]

/-- Result of walk_archive_files: the entry state, the returned result, and
the list of paths passed to the per-file callback, in order. -/
structure WalkOut where
  fs : EntryFS
  res : Except ArcError Unit
  visited : List String
deriving DecidableEq

/-- walk_archive_files, archive_manager.cc:321-349: extract; on error,
fs::remove_all of the entry directory (all files under it) and the error is
returned as is; on success every regular (non-directory) file under the entry
directory is passed to the callback. -/
def walk_archive_files (fs : EntryFS) (now : Nat) (inp : ExtractInput) : WalkOut :=
  let o := extract fs now inp
  match o.res with
  | Except.error e => { fs := { o.fs with files := [] }, res := Except.error e, visited := [] }
  | Except.ok _ =>
    { fs := o.fs, res := Except.ok (),
      visited := (o.fs.files.filter (fun f => f.isDir == false)).map EFile.path }

/-- The inputs of is_archive, archive_manager.cc:94-142: whether
archive_read_open_filename returns ARCHIVE_OK, whether the first
archive_read_next_header returns ARCHIVE_OK, and the format name, filter
count and first filter name reported for the opened archive. -/
structure ArchiveProbe where
  openOk : Bool
  headerOk : Bool
  formatName : String
  filterCount : Int
  firstFilterName : String
deriving DecidableEq

/-- is_archive, archive_manager.cc:94-142. -/
def is_archive (p : ArchiveProbe) : Bool :=
  if p.openOk then
    if p.headerOk then
      if p.formatName = "raw" then
        if p.filterCount = 1 then false
        else if p.filterCount = 2 ∧ p.firstFilterName = "gzip" then false
        else true
      else true
    else false
  else false

/-- The first 1024 bytes that filename_to_tmp_path hashes,
archive_manager.cc:161-170: nothing when the open fails (content = none),
otherwise up to 1024 leading bytes of the file. -/
def readPrefix (content : Option (List Nat)) : List Nat :=
  (content.getD []).take 1024

/-- filename_to_tmp_path, archive_manager.cc:153-174.  The hasher (class
hasher of lnav_util, outside the given sources) is a parameter: it consumes
the basename and the leading bytes and yields the hex digest.  The result is
cache_root / "arc-<digest>-<basename>". -/
def filename_to_tmp_path (hash : String → List Nat → String) (cache_root : String)
    (filename : String) (content : Option (List Nat)) : String :=
  let basename := basenameOf filename
  let fp := hash basename (readPrefix content)
  cache_root ++ "/" ++ "arc-" ++ fp ++ "-" ++ basename

/-- An immediate child of the cache root as the janitor's directory scan sees
it: its name and its last-write time. -/
structure CEntry where
  name : String
  mtime : Nat
deriving DecidableEq

/-- Index of the last dot in a character list, if any. -/
def lastDotIdx : List Char → Option Nat
  | [] => none
  | c :: cs =>
    match lastDotIdx cs with
    | some i => some (i + 1)
    | none => if c = '.' then some 0 else none

/-- fs::path(s).extension() for a single path component: the substring from
the last dot on, empty for dotfiles (a lone leading dot) and for the special
names "." and "..". -/
def extensionOf (s : String) : String :=
  if s = "." ∨ s = ".." then ""
  else
    match lastDotIdx s.toList with
    | none => ""
    | some 0 => ""
    | some i => String.mk (s.toList.drop i)

/-- fs::path(s).stem() for a single path component: everything before the
extension. -/
def stemOf (s : String) : String :=
  if s = "." ∨ s = ".." then s
  else
    match lastDotIdx s.toList with
    | none => s
    | some 0 => s
    | some i => String.mk (s.toList.take i)

/-- fs::path::replace_extension: the stem with the given extension appended
(the empty string removes the extension). -/
def replaceExtension (s ext : String) : String := stemOf s ++ ext

/-- The scan phase of cleanup_cache, archive_manager.cc:360-372: collect the
names of the immediate children whose extension is ".done" and whose
mtime + TTL has passed (the code skips the entry when now < mtime + ttl). -/
def selectExpired (now ttl : Nat) (es : List CEntry) : List String :=
  (es.filter (fun e => extensionOf e.name == ".done" && decide (e.mtime + ttl ≤ now))).map
    CEntry.name

/-- fs::remove of one name: a missing name makes the removal a no-op. -/
def removePath (p : String) (es : List CEntry) : List CEntry :=
  es.filter (fun e => e.name != p)

/-- The removal phase for one scheduled sentinel, archive_manager.cc:374-383:
remove the sentinel, then its ".lck" sibling (replace_extension ".lck"), then
the entry directory tree (replace_extension with nothing, remove_all). -/
def removeEntryFiles (es : List CEntry) (p : String) : List CEntry :=
  let p1 := replaceExtension p ".lck"
  let p2 := replaceExtension p1 ""
  removePath p2 (removePath p1 (removePath p es))

/-- One sweep of cleanup_cache, archive_manager.cc:351-385: the schedule is
computed over the whole directory first, then each scheduled entry's three
removals run. -/
def cleanup_cache (now ttl : Nat) (es : List CEntry) : List CEntry :=
  (selectExpired now ttl es).foldl removeEntryFiles es

/-- The three names a scheduled sentinel p leads the sweep to delete. -/
def removalTargets (p : String) : List String :=
  [p, replaceExtension p ".lck", replaceExtension (replaceExtension p ".lck") ""]

/-- Whether a name is deleted by the sweep on the given directory listing. -/
def isRemovalTarget (now ttl : Nat) (es : List CEntry) (name : String) : Bool :=
  (selectExpired now ttl es).any (fun p => (removalTargets p).contains name)

end ArchiveManager

namespace FileVtab

/-- A struct timeval, as used for the per-file content-time offset. -/
structure TimeVal where
  tv_sec : Int
  tv_usec : Int
deriving DecidableEq

/-- The attributes of one open file that the lnav_file table exposes
(file_vtab.cc:47-58 and get_column, lines 71-111).  validFilename models
logfile::is_valid_filename (true when the handle is backed by a real file
path, not a symbolic one). -/
structure LogFileR where
  device : Int
  inode : Int
  filename : String
  validFilename : Bool
  formatName : Option String
  lines : Int
  timeOffset : TimeVal
  visible : Bool
deriving DecidableEq

/-- Modelled from the spec: `logfile::adjust_content_time` is declared outside
the given sources.  The spec exposes a per-file millisecond time offset, and
the call site in lnav_file::update_row (file_vtab.cc:140) passes the new
offset with the absolute flag set to true, so the model sets the file's
content-time offset to the given timeval. -/
def adjust_content_time (lf : LogFileR) (tv : TimeVal) : LogFileR :=
  { lf with timeOffset := tv }

def set_filename (lf : LogFileR) (p : String) : LogFileR := { lf with filename := p }

def set_visibility (lf : LogFileR) (v : Bool) : LogFileR := { lf with visible := v }

/-- The millisecond offset reported by get_column col 5, file_vtab.cc:95-100:
tv_sec * 1000 + tv_usec / 1000 with C truncating division. -/
def time_offset_ms (tv : TimeVal) : Int := tv.tv_sec * 1000 + tv.tv_usec.tdiv 1000

/-- file loading options; only the field update_row touches is modelled. -/
structure FileOpenOptions where
  loo_include_in_session : Bool
deriving DecidableEq

/-- file_collection: the open files and the name-to-options map (modelled as
an association list with unique keys kept by insert/erase). -/
structure FileCollection where
  fc_files : List LogFileR
  fc_file_names : List (String × FileOpenOptions)
deriving DecidableEq

def lookupName (m : List (String × FileOpenOptions)) (k : String) :
    Option FileOpenOptions :=
  (m.find? (fun kv => kv.1 == k)).map Prod.snd

def eraseName (m : List (String × FileOpenOptions)) (k : String) :
    List (String × FileOpenOptions) :=
  m.filter (fun kv => kv.1 != k)

def insertName (m : List (String × FileOpenOptions)) (k : String)
    (v : FileOpenOptions) : List (String × FileOpenOptions) :=
  eraseName m k ++ [(k, v)]

/-- C narrowing conversion (int) applied to a 64-bit value: wraps modulo
2^32 into the interval [-2^31, 2^31). -/
def toInt32 (v : Int) : Int := (v + 2147483648) % 4294967296 - 2147483648

/-- lnav_file::update_row, file_vtab.cc:125-169.  The C++ code first builds a
timeval from the passed millisecond offset — tv_sec = (int)(offset/1000),
tv_usec = (int)(offset/1000000), truncating int64 division followed by a
narrowing cast to int, modelled by toInt32 — and applies
adjust_content_time unconditionally; then the path change is handled (a real
file path throws; a symbolic one is renamed when present in fc_file_names,
with loo_include_in_session set and the session reloaded — session state is
outside the modelled attributes); finally visibility is set when it differs.
The throw escapes after the content-time adjustment, so the error case
returns the collection with the offset already changed.  The vector indexing
fc_files[rowid] has an in-bounds precondition; out of bounds is totalised
as an error with the collection unchanged. -/
def update_row (fc : FileCollection) (rowid : Nat) (_device _inode : Int)
    (path : String) (_format : Option String) (_lines : Int)
    (time_offset : Int) (visible : Bool) :
    Except String Unit × FileCollection :=
  match fc.fc_files[rowid]? with
  | none => (Except.error "rowid out of bounds", fc)
  | some lf0 =>
    let tv : TimeVal :=
      { tv_sec := toInt32 (time_offset.tdiv 1000),
        tv_usec := toInt32 (time_offset.tdiv (1000 * 1000)) }
    let lf1 := adjust_content_time lf0 tv
    if path ≠ lf1.filename then
      if lf1.validFilename then
        (Except.error "real file paths cannot be updated, only symbolic ones",
          { fc with fc_files := fc.fc_files.set rowid lf1 })
      else
        match lookupName fc.fc_file_names lf1.filename with
        | some loo =>
          let names1 := eraseName fc.fc_file_names lf1.filename
          let loo1 := { loo with loo_include_in_session := true }
          let names2 := insertName names1 path loo1
          let lf2 := set_filename lf1 path
          let lf3 := if lf2.visible != visible then set_visibility lf2 visible else lf2
          (Except.ok (), { fc_files := fc.fc_files.set rowid lf3, fc_file_names := names2 })
        | none =>
          let lf3 := if lf1.visible != visible then set_visibility lf1 visible else lf1
          (Except.ok (), { fc with fc_files := fc.fc_files.set rowid lf3 })
    else
      let lf3 := if lf1.visible != visible then set_visibility lf1 visible else lf1
      (Except.ok (), { fc with fc_files := fc.fc_files.set rowid lf3 })

end FileVtab

namespace ArchiveManager

/- Concrete example values used by witness theorems. -/

/-- A stand-in content hasher for witness instances. -/
def hashEx (b : String) (bs : List Nat) : String := toString (b.length + bs.length)

def fsEmpty : EntryFS := ⟨none, []⟩

def fsDone : EntryFS := ⟨some 5, []⟩

/-- A 3-byte regular member that extracts cleanly. -/
def mOk : Member :=
  ⟨false, "a.txt", true, 3, 0o100644, false, [⟨false, false, 3, 999999999⟩], false, "tar", 1⟩

/-- A directory member. -/
def mDirEx : Member := ⟨false, "sub", true, 0, 0o040755, false, [], false, "tar", 1⟩

/-- A member whose single 2 MB block sees no free space left. -/
def mLow : Member :=
  ⟨false, "big", true, 2000000, 0o100644, false, [⟨false, false, 2000000, 0⟩], false, "tar", 1⟩

/-- A member whose header read fails. -/
def mBad : Member := ⟨true, "", true, 0, 0, false, [], false, "tar", 1⟩

def inpOk : ExtractInput := ⟨"f", "t", false, [mOk, mDirEx]⟩

def inpLow : ExtractInput := ⟨"f", "t", false, [mLow]⟩

def inpFail : ExtractInput := ⟨"f", "t", false, [mOk, mBad]⟩

/-- A sample cache-root listing: an expired entry a, a fresh entry b, and a
partial entry c that has no .done sentinel. -/
def esEx : List CEntry :=
  [⟨"arc-h-a.done", 50⟩, ⟨"arc-h-a.lck", 0⟩, ⟨"arc-h-a", 0⟩,
   ⟨"arc-h-b.done", 95⟩, ⟨"arc-h-b.lck", 0⟩, ⟨"arc-h-b", 0⟩,
   ⟨"arc-g-c.lck", 0⟩, ⟨"arc-g-c", 0⟩]

end ArchiveManager

namespace FileVtab

def lfC9 : LogFileR := ⟨7, 8, "sym", false, some "syslog", 10, ⟨0, 0⟩, true⟩

def fcC9 : FileCollection := ⟨[lfC9], [("sym", ⟨false⟩)]⟩

/-- C9 counterexample: an update that passes a new millisecond offset (2000)
changes the row's time offset — the claim that the time offset is left
unchanged by an update fails on the code, which forwards the offset to
adjust_content_time on every update. -/
theorem c9_counterexample :
    ((update_row fcC9 0 7 8 "sym" (some "syslog") 10 2000 true).2.fc_files.getD 0
        lfC9).timeOffset ≠
      (fcC9.fc_files.getD 0 lfC9).timeOffset := by decide

/-- C9 (amended): the update operation mutates only the row's path (and only
when the handle is not backed by a literal filename, otherwise the path
change is rejected with an error), its visibility flag, and its time offset,
which is set from the passed millisecond value (as the source computes it:
truncating int64 division by 1000 and by 1000000, each narrowed to 32-bit
int); device, inode, format and line count are unchanged, and no row is
inserted or removed. -/
theorem c9_update_row_frame (fc : FileCollection) (rowid : Nat) (device inode : Int)
    (path : String) (format : Option String) (lines time_offset : Int) (visible : Bool)
    (h : rowid < fc.fc_files.length) :
    ∃ lf2 : LogFileR,
      (update_row fc rowid device inode path format lines time_offset visible).2.fc_files =
        fc.fc_files.set rowid lf2 ∧
      (update_row fc rowid device inode path format lines time_offset
          visible).2.fc_files.length = fc.fc_files.length ∧
      lf2.device = fc.fc_files[rowid].device ∧
      lf2.inode = fc.fc_files[rowid].inode ∧
      lf2.formatName = fc.fc_files[rowid].formatName ∧
      lf2.lines = fc.fc_files[rowid].lines ∧
      lf2.validFilename = fc.fc_files[rowid].validFilename ∧
      lf2.timeOffset =
        ⟨toInt32 (time_offset.tdiv 1000), toInt32 (time_offset.tdiv (1000 * 1000))⟩ ∧
      ((update_row fc rowid device inode path format lines time_offset visible).1 =
          Except.ok () → lf2.visible = visible) ∧
      (path ≠ fc.fc_files[rowid].filename → fc.fc_files[rowid].validFilename = true →
        (update_row fc rowid device inode path format lines time_offset visible).1 =
            Except.error "real file paths cannot be updated, only symbolic ones" ∧
          lf2.filename = fc.fc_files[rowid].filename ∧
          lf2.visible = fc.fc_files[rowid].visible) ∧
      (path = fc.fc_files[rowid].filename → lf2.filename = path) := by
  have hidx : fc.fc_files[rowid]? = some fc.fc_files[rowid] := List.getElem?_eq_getElem h
  simp only [update_row, hidx]
  split
  · rename_i hpath
    split
    · rename_i hvalid
      refine ⟨_, rfl, by rw [List.length_set], ?_⟩
      simp_all [adjust_content_time]
    · rename_i hvalid
      split
      · rename_i loo hlook
        split
        · refine ⟨_, rfl, by rw [List.length_set], ?_⟩
          simp_all [adjust_content_time, set_filename, set_visibility]
        · rename_i hvis
          refine ⟨_, rfl, by rw [List.length_set], ?_⟩
          simp_all [adjust_content_time, set_filename, set_visibility, bne_iff_ne]
      · rename_i hlook
        split
        · refine ⟨_, rfl, by rw [List.length_set], ?_⟩
          simp_all [adjust_content_time, set_visibility]
        · rename_i hvis
          refine ⟨_, rfl, by rw [List.length_set], ?_⟩
          simp_all [adjust_content_time, set_visibility, bne_iff_ne]
  · rename_i hpath
    split
    · refine ⟨_, rfl, by rw [List.length_set], ?_⟩
      simp_all [adjust_content_time, set_visibility]
    · rename_i hvis
      refine ⟨_, rfl, by rw [List.length_set], ?_⟩
      simp_all [adjust_content_time, set_visibility, bne_iff_ne]

/-- C9 witness: the amended theorem applied at a concrete collection. -/
theorem c9_witness :
    0 < fcC9.fc_files.length ∧
    (update_row fcC9 0 7 8 "sym" (some "syslog") 10 2000 true).2.fc_files.length =
      fcC9.fc_files.length := by
  refine ⟨by decide, ?_⟩
  obtain ⟨lf2, hset, hlen, hrest⟩ :=
    c9_update_row_frame fcC9 0 7 8 "sym" (some "syslog") 10 2000 true (by decide)
  exact hlen

end FileVtab

namespace ArchiveManager

lemma removeEntryFiles_eq_filter (es : List CEntry) (p : String) :
    removeEntryFiles es p =
      es.filter (fun e => ! (removalTargets p).contains e.name) := by
  unfold removeEntryFiles removePath
  rw [List.filter_filter, List.filter_filter]
  apply List.filter_congr
  intro e _
  rw [Bool.eq_iff_iff]
  simp [removalTargets]
  tauto

lemma foldl_removeEntryFiles (ps : List String) (es : List CEntry) :
    ps.foldl removeEntryFiles es =
      es.filter (fun e => ! ps.any (fun p => (removalTargets p).contains e.name)) := by
  induction ps generalizing es with
  | nil => simp
  | cons p ps ih =>
    rw [List.foldl_cons, ih, removeEntryFiles_eq_filter, List.filter_filter]
    apply List.filter_congr
    intro e _
    rw [Bool.eq_iff_iff]
    simp
    tauto

/-- Survival under a sweep is pointwise: an entry remains exactly when its
name is not among the removal targets of any scheduled sentinel. -/
lemma cleanup_cache_eq_filter (now ttl : Nat) (es : List CEntry) :
    cleanup_cache now ttl es =
      es.filter (fun e => ! isRemovalTarget now ttl es e.name) := by
  unfold cleanup_cache isRemovalTarget
  exact foldl_removeEntryFiles _ _

lemma mem_selectExpired (now ttl : Nat) (es : List CEntry) (p : String) :
    p ∈ selectExpired now ttl es ↔
      ∃ d ∈ es, d.name = p ∧ extensionOf d.name = ".done" ∧ d.mtime + ttl ≤ now := by
  simp only [selectExpired, List.mem_map, List.mem_filter, Bool.and_eq_true, beq_iff_eq,
    decide_eq_true_eq]
  constructor
  · rintro ⟨d, ⟨hd, hext, hexp⟩, rfl⟩
    exact ⟨d, hd, rfl, hext, hexp⟩
  · rintro ⟨d, hd, rfl, hext, hexp⟩
    exact ⟨d, ⟨hd, hext, hexp⟩, rfl⟩

/-- C10: the sweep schedules only immediate children whose name has the
".done" extension, and any entry that is not covered by a .done sentinel in
the listing — a partial entry directory or a lone .lck file — survives every
sweep regardless of its own age. -/
theorem c10_sweep_only_done (now ttl : Nat) (es : List CEntry) :
    (∀ p ∈ selectExpired now ttl es, extensionOf p = ".done") ∧
    (∀ e ∈ es,
        (∀ d ∈ es, extensionOf d.name = ".done" → e.name ∉ removalTargets d.name) →
        e ∈ cleanup_cache now ttl es) := by
  constructor
  · intro p hp
    rw [mem_selectExpired] at hp
    obtain ⟨d, _, rfl, hext, _⟩ := hp
    exact hext
  · intro e he hno
    rw [cleanup_cache_eq_filter, List.mem_filter]
    refine ⟨he, ?_⟩
    have hfalse : isRemovalTarget now ttl es e.name = false := by
      rw [← Bool.not_eq_true]
      intro habs
      unfold isRemovalTarget at habs
      rw [List.any_eq_true] at habs
      obtain ⟨p, hp, hcont⟩ := habs
      rw [mem_selectExpired] at hp
      obtain ⟨d, hd, rfl, hdext, _⟩ := hp
      rw [List.contains_eq_any_beq, List.any_eq_true] at hcont
      obtain ⟨q, hq, hbeq⟩ := hcont
      rw [beq_iff_eq] at hbeq
      subst hbeq
      exact hno d hd hdext hq
    rw [hfalse]
    rfl

/-- C10 witness: the sentinel-less partial entry c (directory and lock file)
survives a sweep that evicts the expired entry a. -/
theorem c10_witness :
    (⟨"arc-g-c.lck", 0⟩ : CEntry) ∈ cleanup_cache 100 10 esEx ∧
    (⟨"arc-g-c", 0⟩ : CEntry) ∈ cleanup_cache 100 10 esEx :=
  ⟨(c10_sweep_only_done 100 10 esEx).2 ⟨"arc-g-c.lck", 0⟩ (by decide) (by decide),
   (c10_sweep_only_done 100 10 esEx).2 ⟨"arc-g-c", 0⟩ (by decide) (by decide)⟩

/-- C6: is_archive returns false for a readable file of detected format "raw"
with exactly one filter, and for "raw" with exactly two filters whose first is
gzip; in every other case where the first header is read successfully it
returns true; and it returns false whenever the open or the first header read
fails. -/
theorem c6_is_archive_cases (p : ArchiveProbe) :
    is_archive p = true ↔
      (p.openOk = true ∧ p.headerOk = true ∧
        ¬ (p.formatName = "raw" ∧
            (p.filterCount = 1 ∨ (p.filterCount = 2 ∧ p.firstFilterName = "gzip")))) := by
  rcases p with ⟨o, h, fn, fc, ff⟩
  simp only [is_archive]
  split_ifs <;> simp_all

/-- C7: the cache path resolver is deterministic: for any hasher, any cache
root and any two calls seeing the same basename and the same first 1024
content bytes the resulting cache entry path is identical; and an unreadable
file (no content) resolves deterministically from the basename alone. -/
theorem c7_resolver_deterministic :
    (∀ (hash : String → List Nat → String) (root f1 f2 : String)
       (c1 c2 : Option (List Nat)),
       basenameOf f1 = basenameOf f2 → readPrefix c1 = readPrefix c2 →
       filename_to_tmp_path hash root f1 c1 = filename_to_tmp_path hash root f2 c2) ∧
    (∀ (hash : String → List Nat → String) (root f1 f2 : String),
       basenameOf f1 = basenameOf f2 →
       filename_to_tmp_path hash root f1 none = filename_to_tmp_path hash root f2 none) := by
  constructor
  · intro hash root f1 f2 c1 c2 hb hc
    simp [filename_to_tmp_path, hb, hc]
  · intro hash root f1 f2 hb
    simp [filename_to_tmp_path, hb]

/-- C7 witness: two distinct paths with the same basename and leading content
resolve to the same cache path; so do two unreadable files sharing a basename. -/
theorem c7_witness :
    filename_to_tmp_path hashEx "/tmp/lnav-0-archives" "a/x.tgz" (some [1, 2]) =
        filename_to_tmp_path hashEx "/tmp/lnav-0-archives" "b/x.tgz" (some [1, 2]) ∧
    filename_to_tmp_path hashEx "/tmp/lnav-0-archives" "a/x.tgz" none =
        filename_to_tmp_path hashEx "/tmp/lnav-0-archives" "b/x.tgz" none :=
  ⟨c7_resolver_deterministic.1 hashEx "/tmp/lnav-0-archives" "a/x.tgz" "b/x.tgz"
      (some [1, 2]) (some [1, 2]) (by decide) (by decide),
   c7_resolver_deterministic.2 hashEx "/tmp/lnav-0-archives" "a/x.tgz" "b/x.tgz"
      (by decide)⟩

end ArchiveManager

namespace ArchiveManager

lemma sizeSum_nil : sizeSum [] = 0 := rfl

lemma sizeSum_cons (b : Block) (l : List Block) :
    sizeSum (b :: l) = b.size + sizeSum l := by
  simp [sizeSum]

lemma copy_data_loop_cons (b : Block) (rest : List Block) (lsc total : Nat)
    (h1 : b.readErr = false) (h2 : b.writeErr = false) :
    copy_data_loop (b :: rest) lsc total =
      if total + b.size - lsc > 1024 * 1024 then
        if b.avail < MIN_FREE_SPACE then
          (Except.error ArcError.lowDiskSpace,
            [CopyEvent.wrote b.size, CopyEvent.spaceQuery b.avail])
        else
          ((copy_data_loop rest lsc (total + b.size)).1,
            CopyEvent.wrote b.size :: CopyEvent.spaceQuery b.avail ::
              (copy_data_loop rest lsc (total + b.size)).2)
      else
        ((copy_data_loop rest lsc (total + b.size)).1,
          CopyEvent.wrote b.size :: (copy_data_loop rest lsc (total + b.size)).2) := by
  simp only [copy_data_loop, h1, h2, Bool.false_eq_true, if_false]

lemma copy_data_loop_spec (blocks : List Block) :
    ∀ total : Nat, (∀ b ∈ blocks, b.readErr = false ∧ b.writeErr = false) →
      (((copy_data_loop blocks 0 total).1 = Except.ok ()) ↔
        (∀ pre b suf, blocks = pre ++ b :: suf →
          1024 * 1024 < total + sizeSum pre + b.size → MIN_FREE_SPACE ≤ b.avail)) ∧
      ((copy_data_loop blocks 0 total).1 ≠ Except.ok () →
        (copy_data_loop blocks 0 total).1 = Except.error ArcError.lowDiskSpace) := by
  induction blocks with
  | nil =>
    intro total _
    constructor
    · constructor
      · intro _ pre b suf hsplit
        exact absurd hsplit (by simp)
      · intro _
        rfl
    · intro hne
      exact absurd rfl hne
  | cons b rest ih =>
    intro total hok
    have hb := hok b (List.mem_cons_self b rest)
    have hrest : ∀ x ∈ rest, x.readErr = false ∧ x.writeErr = false :=
      fun x hx => hok x (List.mem_cons_of_mem b hx)
    have ihr := ih (total + b.size) hrest
    rw [copy_data_loop_cons b rest 0 total hb.1 hb.2, Nat.sub_zero]
    by_cases hcross : total + b.size > 1024 * 1024
    · rw [if_pos hcross]
      by_cases hlow : b.avail < MIN_FREE_SPACE
      · rw [if_pos hlow]
        constructor
        · constructor
          · intro hc
            exact absurd hc (by simp)
          · intro hP
            have hcond : 1024 * 1024 < total + sizeSum [] + b.size := by
              rw [sizeSum_nil]
              omega
            have := hP [] b rest rfl hcond
            omega
        · intro _
          rfl
      · rw [if_neg hlow]
        constructor
        · rw [ihr.1]
          constructor
          · intro hP pre b2 suf hsplit hcond
            cases pre with
            | nil =>
              have hb2 : b2 = b := by
                have := hsplit
                simp at this
                exact this.1.symm
              rw [hb2]
              omega
            | cons p0 pre2 =>
              have hinj : p0 = b ∧ rest = pre2 ++ b2 :: suf := by
                rw [List.cons_append] at hsplit
                exact ⟨(List.cons.inj hsplit).1.symm, (List.cons.inj hsplit).2⟩
              rw [hinj.1, sizeSum_cons] at hcond
              exact hP pre2 b2 suf hinj.2 (by omega)
          · intro hP pre2 b2 suf hsplit hcond
            exact hP (b :: pre2) b2 suf (by rw [hsplit, List.cons_append]) (by rw [sizeSum_cons]; omega)
        · exact ihr.2
    · rw [if_neg hcross]
      constructor
      · rw [ihr.1]
        constructor
        · intro hP pre b2 suf hsplit hcond
          cases pre with
          | nil =>
            have hb2 : b2 = b := by
              have hs2 := hsplit
              simp at hs2
              exact hs2.1.symm
            rw [hb2, sizeSum_nil] at hcond
            omega
          | cons p0 pre2 =>
            have hinj : p0 = b ∧ rest = pre2 ++ b2 :: suf := by
              rw [List.cons_append] at hsplit
              exact ⟨(List.cons.inj hsplit).1.symm, (List.cons.inj hsplit).2⟩
            rw [hinj.1, sizeSum_cons] at hcond
            exact hP pre2 b2 suf hinj.2 (by omega)
        · intro hP pre2 b2 suf hsplit hcond
          exact hP (b :: pre2) b2 suf (by rw [hsplit, List.cons_append]) (by rw [sizeSum_cons]; omega)
      · exact ihr.2

lemma copy_events_no_createDone (p : String) (l : List CopyEvent) :
    Event.createDone ∉ l.map (copyEventToEvent p) := by
  intro hc
  rw [List.mem_map] at hc
  obtain ⟨ce, _, hce⟩ := hc
  cases ce <;> simp [copyEventToEvent] at hce

lemma copy_events_no_wroteHeader (p q : String) (r : Nat) (l : List CopyEvent) :
    Event.wroteHeader q r ∉ l.map (copyEventToEvent p) := by
  intro hc
  rw [List.mem_map] at hc
  obtain ⟨ce, _, hce⟩ := hc
  cases ce <;> simp [copyEventToEvent] at hce

end ArchiveManager

namespace ArchiveManager

lemma process_member_spec (f t : String) (m : Member) (fs : EntryFS) :
    (process_member f t m fs).2.1.doneMtime = fs.doneMtime ∧
    Event.createDone ∉ (process_member f t m fs).2.2 ∧
    (∃ newf, (process_member f t m fs).2.1.files = fs.files ++ newf ∧
      ∀ fl ∈ newf, fl.perm = entry_perm m.mode ∧ fl.isDir = S_ISDIR m.mode) ∧
    (∀ p q, Event.wroteHeader p q ∈ (process_member f t m fs).2.2 →
      q = entry_perm m.mode) := by
  simp only [process_member]
  split
  · exact ⟨rfl, by simp, ⟨[], by simp, by simp⟩, by simp⟩
  · split
    · refine ⟨rfl, by simp, ⟨[], by simp, by simp⟩, ?_⟩
      intro p q hq
      simp at hq
    · split
      · split
        · refine ⟨rfl, ?_, ?_, ?_⟩
          · intro hc
            simp only [List.append_assoc, List.mem_append, List.mem_cons,
              List.not_mem_nil, or_false] at hc
            rcases hc with hc | hc | hc
            · cases hc
            · cases hc
            · exact copy_events_no_createDone _ _ hc
          · exact ⟨_, rfl, by intro fl hfl; simp at hfl; rw [hfl]; exact ⟨rfl, rfl⟩⟩
          · intro p q hq
            simp only [List.append_assoc, List.mem_append, List.mem_cons,
              List.not_mem_nil, or_false] at hq
            rcases hq with hq | hq | hq
            · cases hq
            · cases hq
              rfl
            · exact absurd hq (copy_events_no_wroteHeader _ _ _ _)
        · split
          · refine ⟨rfl, ?_, ?_, ?_⟩
            · intro hc
              simp only [List.append_assoc, List.mem_append, List.mem_cons,
                List.not_mem_nil, or_false] at hc
              rcases hc with hc | hc | hc
              · cases hc
              · cases hc
              · exact copy_events_no_createDone _ _ hc
            · exact ⟨_, rfl, by intro fl hfl; simp at hfl; rw [hfl]; exact ⟨rfl, rfl⟩⟩
            · intro p q hq
              simp only [List.append_assoc, List.mem_append, List.mem_cons,
                List.not_mem_nil, or_false] at hq
              rcases hq with hq | hq | hq
              · cases hq
              · cases hq
                rfl
              · exact absurd hq (copy_events_no_wroteHeader _ _ _ _)
          · refine ⟨rfl, ?_, ?_, ?_⟩
            · intro hc
              simp only [List.append_assoc, List.mem_append, List.mem_cons,
                List.not_mem_nil, or_false] at hc
              rcases hc with hc | hc | hc
              · cases hc
              · cases hc
              · exact copy_events_no_createDone _ _ hc
            · exact ⟨_, rfl, by intro fl hfl; simp at hfl; rw [hfl]; exact ⟨rfl, rfl⟩⟩
            · intro p q hq
              simp only [List.append_assoc, List.mem_append, List.mem_cons,
                List.not_mem_nil, or_false] at hq
              rcases hq with hq | hq | hq
              · cases hq
              · cases hq
                rfl
              · exact absurd hq (copy_events_no_wroteHeader _ _ _ _)
      · split
        · refine ⟨rfl, by simp, ?_, ?_⟩
          · exact ⟨_, rfl, by intro fl hfl; simp at hfl; rw [hfl]; exact ⟨rfl, rfl⟩⟩
          · intro p q hq
            simp only [List.mem_append, List.mem_cons, List.not_mem_nil, or_false] at hq
            rcases hq with hq | hq
            · cases hq
            · cases hq
              rfl
        · refine ⟨rfl, by simp, ?_, ?_⟩
          · exact ⟨_, rfl, by intro fl hfl; simp at hfl; rw [hfl]; exact ⟨rfl, rfl⟩⟩
          · intro p q hq
            simp only [List.mem_append, List.mem_cons, List.not_mem_nil, or_false] at hq
            rcases hq with hq | hq
            · cases hq
            · cases hq
              rfl

end ArchiveManager

namespace ArchiveManager

lemma extract_loop_spec (f t : String) (now : Nat) (ms : List Member) :
    ∀ fs evs, ∃ tail newf,
      (extract_loop f t now ms fs evs).events = evs ++ tail ∧
      (extract_loop f t now ms fs evs).fs.files = fs.files ++ newf ∧
      (∀ fl ∈ newf, ∃ m, m ∈ ms ∧ fl.perm = entry_perm m.mode ∧
        fl.isDir = S_ISDIR m.mode) ∧
      (∀ p q, Event.wroteHeader p q ∈ tail → ∃ m, m ∈ ms ∧ q = entry_perm m.mode) ∧
      (((extract_loop f t now ms fs evs).res = Except.ok () ∧
          (extract_loop f t now ms fs evs).fs.doneMtime = some now ∧
          ∃ mid, tail = mid ++ [Event.createDone] ∧ Event.createDone ∉ mid) ∨
        ((∃ e, (extract_loop f t now ms fs evs).res = Except.error e) ∧
          (extract_loop f t now ms fs evs).fs.doneMtime = fs.doneMtime ∧
          Event.createDone ∉ tail)) := by
  induction ms with
  | nil =>
    intro fs evs
    refine ⟨[Event.createDone], [], by simp [extract_loop], by simp [extract_loop],
      by simp, ?_, ?_⟩
    · intro p q hq
      simp at hq
    · left
      exact ⟨rfl, rfl, [], by simp, by simp⟩
  | cons m rest ih =>
    intro fs evs
    obtain ⟨hdone, hnocd, ⟨pmf, hpmf, hpmperm⟩, hpmwh⟩ := process_member_spec f t m fs
    rcases hres : (process_member f t m fs).1 with e | u
    · have hloop : extract_loop f t now (m :: rest) fs evs =
          { fs := (process_member f t m fs).2.1, res := Except.error e,
            events := evs ++ (process_member f t m fs).2.2 } := by
        simp only [extract_loop, hres]
      refine ⟨(process_member f t m fs).2.2, pmf, by rw [hloop], ?_, ?_, ?_, ?_⟩
      · rw [hloop]
        exact hpmf
      · intro fl hfl
        exact ⟨m, List.mem_cons_self m rest, hpmperm fl hfl⟩
      · intro p q hq
        exact ⟨m, List.mem_cons_self m rest, hpmwh p q hq⟩
      · right
        refine ⟨⟨e, by rw [hloop]⟩, ?_, hnocd⟩
        rw [hloop]
        exact hdone
    · have hloop : extract_loop f t now (m :: rest) fs evs =
          extract_loop f t now rest (process_member f t m fs).2.1
            (evs ++ (process_member f t m fs).2.2) := by
        simp only [extract_loop, hres]
      obtain ⟨tail2, newf2, h1, h2, h3, h4, h5⟩ :=
        ih (process_member f t m fs).2.1 (evs ++ (process_member f t m fs).2.2)
      refine ⟨(process_member f t m fs).2.2 ++ tail2, pmf ++ newf2, ?_, ?_, ?_, ?_, ?_⟩
      · rw [hloop, h1, List.append_assoc]
      · rw [hloop, h2, hpmf, List.append_assoc]
      · intro fl hfl
        rcases List.mem_append.mp hfl with hfl | hfl
        · exact ⟨m, List.mem_cons_self m rest, hpmperm fl hfl⟩
        · obtain ⟨m2, hm2, hprop⟩ := h3 fl hfl
          exact ⟨m2, List.mem_cons_of_mem m hm2, hprop⟩
      · intro p q hq
        rcases List.mem_append.mp hq with hq | hq
        · exact ⟨m, List.mem_cons_self m rest, hpmwh p q hq⟩
        · obtain ⟨m2, hm2, hprop⟩ := h4 p q hq
          exact ⟨m2, List.mem_cons_of_mem m hm2, hprop⟩
      · rcases h5 with ⟨hok, hdn, mid2, hmid, hmidn⟩ | ⟨herr, hdn, hncd⟩
        · left
          refine ⟨by rw [hloop]; exact hok, by rw [hloop]; exact hdn,
            (process_member f t m fs).2.2 ++ mid2, ?_, ?_⟩
          · rw [hmid, List.append_assoc]
          · intro hc
            rcases List.mem_append.mp hc with hc | hc
            · exact hnocd hc
            · exact hmidn hc
        · right
          refine ⟨?_, ?_, ?_⟩
          · obtain ⟨e, he⟩ := herr
            exact ⟨e, by rw [hloop]; exact he⟩
          · rw [hloop, hdn]
            exact hdone
          · intro hc
            rcases List.mem_append.mp hc with hc | hc
            · exact hnocd hc
            · exact hncd hc

end ArchiveManager

namespace ArchiveManager

lemma extract_spec (fs : EntryFS) (now : Nat) (inp : ExtractInput) :
    ∃ newf,
      (extract fs now inp).fs.files = fs.files ++ newf ∧
      (∀ fl ∈ newf, ∃ m, m ∈ inp.members ∧ fl.perm = entry_perm m.mode ∧
        fl.isDir = S_ISDIR m.mode) ∧
      (∀ p q, Event.wroteHeader p q ∈ (extract fs now inp).events →
        ∃ m, m ∈ inp.members ∧ q = entry_perm m.mode) ∧
      (((extract fs now inp).res = Except.ok () ∧
          (extract fs now inp).fs.doneMtime = some now) ∨
        ((∃ e, (extract fs now inp).res = Except.error e) ∧
          (extract fs now inp).fs.doneMtime = fs.doneMtime)) ∧
      (Event.createDone ∈ (extract fs now inp).events ↔
        (fs.doneMtime = none ∧ (extract fs now inp).res = Except.ok ())) ∧
      (Event.createDone ∈ (extract fs now inp).events →
        ∃ mid, (extract fs now inp).events = mid ++ [Event.createDone] ∧
          Event.createDone ∉ mid) := by
  rcases hdm : fs.doneMtime with _ | tdone
  · cases hoe : inp.openErr with
    | true =>
      have hx : extract fs now inp =
          { fs := fs, res := Except.error ArcError.openFailure,
            events := [Event.openSource] } := by
        simp [extract, hdm, hoe]
      refine ⟨[], by simp [hx], by simp, ?_, ?_, ?_, ?_⟩
      · intro p q hq
        rw [hx] at hq
        simp at hq
      · right
        exact ⟨⟨ArcError.openFailure, by rw [hx]⟩, by rw [hx, hdm]⟩
      · rw [hx]
        constructor
        · intro hc
          simp at hc
        · rintro ⟨_, hc⟩
          simp at hc
      · rw [hx]
        intro hc
        simp at hc
    | false =>
      have hx : extract fs now inp =
          extract_loop inp.filename inp.tmp_path now inp.members fs
            [Event.openSource] := by
        simp [extract, hdm, hoe]
      obtain ⟨tail, newf, h1, h2, h3, h4, h5⟩ :=
        extract_loop_spec inp.filename inp.tmp_path now inp.members fs
          [Event.openSource]
      have hmemtail : Event.createDone ∈ (extract fs now inp).events ↔
          Event.createDone ∈ tail := by
        rw [hx, h1]
        simp
      refine ⟨newf, by rw [hx]; exact h2, h3, ?_, ?_, ?_, ?_⟩
      · intro p q hq
        rw [hx, h1] at hq
        rcases List.mem_append.mp hq with hq | hq
        · simp at hq
        · exact h4 p q hq
      · rcases h5 with ⟨hok, hdn, _⟩ | ⟨herr, hdn, _⟩
        · left
          exact ⟨by rw [hx]; exact hok, by rw [hx]; exact hdn⟩
        · right
          obtain ⟨e, he⟩ := herr
          exact ⟨⟨e, by rw [hx]; exact he⟩, by rw [hx, hdn, hdm]⟩
      · rw [hmemtail]
        rcases h5 with ⟨hok, hdn, mid2, hmid, hmidn⟩ | ⟨herr, hdn, hncd⟩
        · refine Iff.intro (fun _ => ⟨rfl, by rw [hx]; exact hok⟩) (fun _ => ?_)
          rw [hmid]
          simp
        · refine Iff.intro (fun hc => absurd hc hncd) (fun hand => ?_)
          obtain ⟨e, he⟩ := herr
          have hc := hand.2
          rw [hx] at hc
          rw [he] at hc
          cases hc
      · intro hc
        rw [hmemtail] at hc
        rcases h5 with ⟨hok, hdn, mid2, hmid, hmidn⟩ | ⟨herr, hdn, hncd⟩
        · refine ⟨Event.openSource :: mid2, ?_, ?_⟩
          · rw [hx, h1, hmid]
            simp
          · intro hc2
            rcases List.mem_cons.mp hc2 with hc2 | hc2
            · cases hc2
            · exact hmidn hc2
        · exact absurd hc hncd
  · have hx : extract fs now inp =
        { fs := { fs with doneMtime := some now }, res := Except.ok (),
          events := [Event.touchDone] } := by
      simp [extract, hdm]
    refine ⟨[], by simp [hx], by simp, ?_, ?_, ?_, ?_⟩
    · intro p q hq
      rw [hx] at hq
      simp at hq
    · left
      exact ⟨by rw [hx], by rw [hx]⟩
    · rw [hx]
      constructor
      · intro hc
        simp at hc
      · rintro ⟨hc, _⟩
        cases hc
    · rw [hx]
      intro hc
      simp at hc

end ArchiveManager

namespace ArchiveManager

/-- C1: when the .done sentinel exists, extract only sets its mtime to now and
returns success — the trace is exactly the sentinel touch, with no source open
and no member write, and the extracted files are untouched; consequently,
after any successful extraction a second call is such a cache hit: it performs
no member write and leaves the extracted contents unchanged, so the writes of
an archive happen exactly once across the two calls. -/
theorem c1_cache_hit_idempotent :
    (∀ (fs : EntryFS) (now t : Nat) (inp : ExtractInput), fs.doneMtime = some t →
      extract fs now inp =
        { fs := { fs with doneMtime := some now }, res := Except.ok (),
          events := [Event.touchDone] }) ∧
    (∀ (fs : EntryFS) (now now2 : Nat) (inp : ExtractInput),
      (extract fs now inp).res = Except.ok () →
      extract (extract fs now inp).fs now2 inp =
        { fs := { (extract fs now inp).fs with doneMtime := some now2 },
          res := Except.ok (), events := [Event.touchDone] }) := by
  have hhit : ∀ (fs : EntryFS) (now t : Nat) (inp : ExtractInput),
      fs.doneMtime = some t →
      extract fs now inp =
        { fs := { fs with doneMtime := some now }, res := Except.ok (),
          events := [Event.touchDone] } := by
    intro fs now t inp h
    simp [extract, h]
  refine ⟨hhit, ?_⟩
  intro fs now now2 inp hok
  have hdone : (extract fs now inp).fs.doneMtime = some now := by
    obtain ⟨newf, _, _, _, hdisj, _, _⟩ := extract_spec fs now inp
    rcases hdisj with ⟨_, hd⟩ | ⟨⟨e, he⟩, _⟩
    · exact hd
    · rw [hok] at he
      cases he
  exact hhit _ now2 now inp hdone

/-- C1 witness: a concrete cache hit, and a concrete second extraction after a
successful first one. -/
theorem c1_witness :
    extract fsDone 9 inpOk =
      { fs := { fsDone with doneMtime := some 9 }, res := Except.ok (),
        events := [Event.touchDone] } ∧
    extract (extract fsEmpty 3 inpOk).fs 7 inpOk =
      { fs := { (extract fsEmpty 3 inpOk).fs with doneMtime := some 7 },
        res := Except.ok (), events := [Event.touchDone] } :=
  ⟨c1_cache_hit_idempotent.1 fsDone 9 5 inpOk rfl,
   c1_cache_hit_idempotent.2 fsEmpty 3 7 inpOk (by decide)⟩

/-- C2: for a body whose block reads and writes all succeed, copy_data returns
success exactly when every block that brings the cumulative written total
over one megabyte sees at least the 32 MiB free-space floor, and its only
possible failure in that case is the low-disk-space error; moreover, whenever
extract fails with LowDiskSpace, the .done sentinel is not created (the done
state is unchanged and no create event is in the trace). -/
theorem c2_space_guard :
    (∀ blocks : List Block, (∀ b ∈ blocks, b.readErr = false ∧ b.writeErr = false) →
      (((copy_data blocks).1 = Except.ok ()) ↔
        (∀ pre b suf, blocks = pre ++ b :: suf →
          1024 * 1024 < sizeSum pre + b.size → MIN_FREE_SPACE ≤ b.avail)) ∧
      ((copy_data blocks).1 ≠ Except.ok () →
        (copy_data blocks).1 = Except.error ArcError.lowDiskSpace)) ∧
    (∀ (fs : EntryFS) (now : Nat) (inp : ExtractInput),
      (extract fs now inp).res = Except.error ArcError.lowDiskSpace →
      (extract fs now inp).fs.doneMtime = fs.doneMtime ∧
      Event.createDone ∉ (extract fs now inp).events) := by
  constructor
  · intro blocks hok
    have h := copy_data_loop_spec blocks 0 hok
    unfold copy_data
    constructor
    · rw [h.1]
      constructor
      · intro hP pre b suf hsplit hcond
        exact hP pre b suf hsplit (by omega)
      · intro hP pre b suf hsplit hcond
        exact hP pre b suf hsplit (by omega)
    · exact h.2
  · intro fs now inp he
    obtain ⟨newf, _, _, _, hdisj, hiff, _⟩ := extract_spec fs now inp
    constructor
    · rcases hdisj with ⟨hok, _⟩ | ⟨_, hd⟩
      · rw [he] at hok
        cases hok
      · exact hd
    · intro hc
      rw [hiff] at hc
      rw [he] at hc
      cases hc.2

/-- C2 witness: a concrete extraction whose 2 MB member sees no space fails
with LowDiskSpace and creates no sentinel. -/
theorem c2_witness :
    (extract fsEmpty 0 inpLow).fs.doneMtime = fsEmpty.doneMtime ∧
    Event.createDone ∉ (extract fsEmpty 0 inpLow).events :=
  ⟨(c2_space_guard.2 fsEmpty 0 inpLow (by decide)).1,
   (c2_space_guard.2 fsEmpty 0 inpLow (by decide)).2⟩

/-- C3: if the extraction fails, walk_archive_files deletes the files of the
(partial) cache entry, returns the extractor's error unchanged, and invokes
the per-file callback on nothing; on success the callback receives exactly
the regular (non-directory) files under the entry, once per file. -/
theorem c3_walk_failure_cleanup (fs : EntryFS) (now : Nat) (inp : ExtractInput) :
    (∀ e, (extract fs now inp).res = Except.error e →
      (walk_archive_files fs now inp).res = Except.error e ∧
      (walk_archive_files fs now inp).fs.files = [] ∧
      (walk_archive_files fs now inp).visited = []) ∧
    ((extract fs now inp).res = Except.ok () →
      (walk_archive_files fs now inp).res = Except.ok () ∧
      (walk_archive_files fs now inp).visited =
        ((extract fs now inp).fs.files.filter (fun f => f.isDir == false)).map
          EFile.path ∧
      ∀ p, (walk_archive_files fs now inp).visited.count p =
        ((extract fs now inp).fs.files.filter
          (fun f => f.isDir == false && f.path == p)).length) := by
  constructor
  · intro e he
    have hw : walk_archive_files fs now inp =
        { fs := { (extract fs now inp).fs with files := [] },
          res := Except.error e, visited := [] } := by
      simp [walk_archive_files, he]
    exact ⟨by rw [hw], by rw [hw], by rw [hw]⟩
  · intro hok
    have hw : walk_archive_files fs now inp =
        { fs := (extract fs now inp).fs, res := Except.ok (),
          visited := ((extract fs now inp).fs.files.filter
            (fun f => f.isDir == false)).map EFile.path } := by
      simp [walk_archive_files, hok]
    refine ⟨by rw [hw], by rw [hw], ?_⟩
    intro p
    rw [hw]
    show (((extract fs now inp).fs.files.filter
        (fun f => f.isDir == false)).map EFile.path).count p = _
    rw [List.count_eq_countP, List.countP_map, List.countP_filter,
      ← List.countP_eq_length_filter]
    apply List.countP_congr
    intro fl _
    simp only [Function.comp_apply, Bool.and_eq_true]
    exact and_comm

/-- C3 witness: a failing and a succeeding concrete walk. -/
theorem c3_witness :
    (walk_archive_files fsEmpty 0 inpFail).res =
        Except.error ArcError.headerReadFailure ∧
    (walk_archive_files fsEmpty 0 inpFail).visited = [] ∧
    (walk_archive_files fsEmpty 3 inpOk).visited = ["t/a.txt"] :=
  ⟨((c3_walk_failure_cleanup fsEmpty 0 inpFail).1 ArcError.headerReadFailure
      (by decide)).1,
   ((c3_walk_failure_cleanup fsEmpty 0 inpFail).1 ArcError.headerReadFailure
      (by decide)).2.2,
   by
    have h := ((c3_walk_failure_cleanup fsEmpty 3 inpOk).2 (by decide)).2.1
    rw [h]
    decide⟩

/-- C4: the .done sentinel is created exactly when extract runs the member
loop to end-of-archive successfully (never on a cache hit and never on an
error: open, header read, write, finish or low disk space); when created it
is strictly the last action, after every member write; and every failing call
leaves the done state unchanged. -/
theorem c4_sentinel_last (fs : EntryFS) (now : Nat) (inp : ExtractInput) :
    (Event.createDone ∈ (extract fs now inp).events ↔
      (fs.doneMtime = none ∧ (extract fs now inp).res = Except.ok ())) ∧
    (∀ e, (extract fs now inp).res = Except.error e →
      (extract fs now inp).fs.doneMtime = fs.doneMtime) ∧
    (Event.createDone ∈ (extract fs now inp).events →
      ∃ mid, (extract fs now inp).events = mid ++ [Event.createDone] ∧
        Event.createDone ∉ mid) := by
  obtain ⟨newf, _, _, _, hdisj, hiff, hlast⟩ := extract_spec fs now inp
  refine ⟨hiff, ?_, hlast⟩
  intro e he
  rcases hdisj with ⟨hok, _⟩ | ⟨_, hd⟩
  · rw [he] at hok
    cases hok
  · exact hd

/-- C4 witness: a concrete failing extraction leaves the done state unchanged,
and a concrete successful one emits the create event. -/
theorem c4_witness :
    (extract fsEmpty 0 inpFail).fs.doneMtime = fsEmpty.doneMtime ∧
    Event.createDone ∈ (extract fsEmpty 3 inpOk).events :=
  ⟨(c4_sentinel_last fsEmpty 0 inpFail).2.1 ArcError.headerReadFailure (by decide),
   ((c4_sentinel_last fsEmpty 3 inpOk).1).mpr ⟨rfl, by decide⟩⟩

/-- C8: the permission forced onto every written entry before its header is
written is owner-read (0o400 = 256) for non-directories and
owner-read/write/execute (0o700 = 448) for directories, regardless of the
source mode; every file the extraction adds to the entry carries exactly that
permission, and no group or other bits (the low six mode bits) are ever set. -/
theorem c8_forced_permissions :
    (∀ mode, entry_perm mode = if S_ISDIR mode then 448 else 256) ∧
    (∀ mode, entry_perm mode % 64 = 0) ∧
    (∀ (fs : EntryFS) (now : Nat) (inp : ExtractInput) (fl : EFile),
      fl ∈ (extract fs now inp).fs.files → fl ∉ fs.files →
      (fl.isDir = true → fl.perm = 448) ∧ (fl.isDir = false → fl.perm = 256) ∧
        fl.perm % 64 = 0) ∧
    (∀ (fs : EntryFS) (now : Nat) (inp : ExtractInput) (p : String) (q : Nat),
      Event.wroteHeader p q ∈ (extract fs now inp).events → q = 256 ∨ q = 448) := by
  have hval : ∀ mode, entry_perm mode = if S_ISDIR mode then 448 else 256 := by
    intro mode
    unfold entry_perm S_IRUSR S_IXUSR S_IWUSR
    cases h : S_ISDIR mode <;> simp
  have hmod : ∀ mode, entry_perm mode % 64 = 0 := by
    intro mode
    rw [hval]
    cases h : S_ISDIR mode <;> simp
  refine ⟨hval, hmod, ?_, ?_⟩
  · intro fs now inp fl hmem hnew
    obtain ⟨newf, hfiles, hperm, _, _, _, _⟩ := extract_spec fs now inp
    rw [hfiles] at hmem
    rcases List.mem_append.mp hmem with hmem | hmem
    · exact absurd hmem hnew
    · obtain ⟨m, _, hp, hd⟩ := hperm fl hmem
      refine ⟨?_, ?_, by rw [hp]; exact hmod m.mode⟩
      · intro hdir
        rw [hp, hval]
        rw [hd] at hdir
        rw [hdir]
        rfl
      · intro hdir
        rw [hp, hval]
        rw [hd] at hdir
        rw [hdir]
        rfl
  · intro fs now inp p q hq
    obtain ⟨newf, _, _, hwh, _, _, _⟩ := extract_spec fs now inp
    obtain ⟨m, _, hqe⟩ := hwh p q hq
    rw [hqe, hval]
    cases S_ISDIR m.mode
    · left
      simp
    · right
      simp

/-- C8 witness: the file and directory written by a concrete extraction carry
exactly the forced permissions. -/
theorem c8_witness :
    ((⟨"t/a.txt", 256, false, 3⟩ : EFile).isDir = true →
      (⟨"t/a.txt", 256, false, 3⟩ : EFile).perm = 448) ∧
    ((⟨"t/a.txt", 256, false, 3⟩ : EFile).isDir = false →
      (⟨"t/a.txt", 256, false, 3⟩ : EFile).perm = 256) ∧
    (⟨"t/a.txt", 256, false, 3⟩ : EFile).perm % 64 = 0 :=
  c8_forced_permissions.2.2.1 fsEmpty 3 inpOk ⟨"t/a.txt", 256, false, 3⟩
    (by decide) (by decide)

end ArchiveManager
